import Mathlib

/-!
Verification development for the coordination subsystem of the `astro-robots`
repository: the station's authoritative resource ledger, the robot/station
messaging step functions, and the versioned map-knowledge merge protocol.

Rust `HashMap`s are embedded as association lists (`List (κ × α)`) with
lookup-first / replace-first / remove-by-key operations; on lists with
distinct keys (the invariant every `HashMap` maintains) these coincide with
the hash-map semantics.  `u32`/`u64` quantities are embedded as `Nat`
(`saturating_sub` is `Nat` truncated subtraction; no arithmetic here can
overflow a machine word in any way a claim depends on).  Externals (the
`crossbeam` channels, the `noise` value-noise generator and the `rand`
`StdRng`) are modelled as parameters: a processed message stands for one
value drained from the channel, and `MapGenEnv` packages the noise
thresholding and the RNG output stream consumed by `Map::new`.
-/

/-- `src/robot/position.rs`: grid position, `u32` coordinates. -/
structure Position where
  x : Nat
  y : Nat
deriving DecidableEq, Repr

/-- `src/robot/resources.rs`: the closed set of resource kinds. -/
inductive ResourceType where
  | Energy
  | Minerals
  | ScientificData
deriving DecidableEq, Repr

/-- `src/map/mod.rs`: payload of an energy tile. -/
structure Energy where
  amount : Nat
  is_base : Bool
deriving DecidableEq, Repr

/-- `src/map/mod.rs`: payload of a mineral tile. -/
structure Mineral where
  amount : Nat
  is_base : Bool
deriving DecidableEq, Repr

/-- `src/map/mod.rs`: payload of a scientific-point tile. -/
structure ScientificPoint where
  value : Nat
  is_base : Bool
deriving DecidableEq, Repr

/-- `src/map/mod.rs`: the tile enum. -/
inductive Tile where
  | Empty
  | Obstacle
  | Energy (energy : Energy)
  | Mineral (mineral : Mineral)
  | ScientificPoint (point : ScientificPoint)
  | Station
deriving DecidableEq, Repr

/-- `HashMap::get`: first entry with the given key. -/
def hmGet {κ α : Type} [DecidableEq κ] (m : List (κ × α)) (k : κ) : Option α :=
  match m with
  | [] => none
  | (k', v) :: rest => if k' = k then some v else hmGet rest k

/-- `HashMap::insert` (also in-place update through `get_mut`): replace the
first entry with the given key, or append a fresh entry. -/
def hmInsert {κ α : Type} [DecidableEq κ] (m : List (κ × α)) (k : κ) (v : α) :
    List (κ × α) :=
  match m with
  | [] => [(k, v)]
  | (k', v') :: rest =>
    if k' = k then (k, v) :: rest else (k', v') :: hmInsert rest k v

/-- `HashMap::remove`: drop the entries with the given key (on the
distinct-key lists a `HashMap` holds this is exactly removing the one
matching entry). -/
def hmRemove {κ α : Type} [DecidableEq κ] (m : List (κ × α)) (k : κ) :
    List (κ × α) :=
  m.filter (fun e => decide (e.1 ≠ k))

/-- `HashMap::contains_key`. -/
def hmContains {κ α : Type} [DecidableEq κ] (m : List (κ × α)) (k : κ) : Bool :=
  (hmGet m k).isSome

/-- `src/map/mod.rs`: the map structure; `tiles` is the row-major grid. -/
structure Map where
  width : Nat
  height : Nat
  tiles : List Tile
  seed : Nat
deriving DecidableEq, Repr

/-- `Map::get_tile`: bounds-checked read at `(x, y)`. -/
def Map.get_tile (m : Map) (x y : Nat) : Option Tile :=
  if x ≥ m.width ∨ y ≥ m.height then none
  else m.tiles.get? (y * m.width + x)

/-- The write done through `Map::get_tile_mut`: bounds-checked replacement
of the tile at `(x, y)`. -/
def Map.set_tile (m : Map) (x y : Nat) (t : Tile) : Map :=
  if x ≥ m.width ∨ y ≥ m.height then m
  else { m with tiles := m.tiles.set (y * m.width + x) t }

/-- `Map::consume_energy`: clamp to the tile amount, empty the tile on full
depletion, return the consumed amount (`None` when no energy tile is there). -/
def Map.consume_energy (m : Map) (x y amount : Nat) : Map × Option Nat :=
  match m.get_tile x y with
  | some (Tile.Energy energy) =>
    let consumed := min amount energy.amount
    let remaining := energy.amount - consumed
    let newTile := if remaining = 0 then Tile.Empty
                   else Tile.Energy { amount := remaining, is_base := energy.is_base }
    (m.set_tile x y newTile, some consumed)
  | _ => (m, none)

/-- `Map::consume_mineral`: same behaviour for mineral tiles. -/
def Map.consume_mineral (m : Map) (x y amount : Nat) : Map × Option Nat :=
  match m.get_tile x y with
  | some (Tile.Mineral mineral) =>
    let consumed := min amount mineral.amount
    let remaining := mineral.amount - consumed
    let newTile := if remaining = 0 then Tile.Empty
                   else Tile.Mineral { amount := remaining, is_base := mineral.is_base }
    (m.set_tile x y newTile, some consumed)
  | _ => (m, none)

/-- `Map::extract_scientific_data`: empty a scientific tile, returning its
value. -/
def Map.extract_scientific_data (m : Map) (x y : Nat) : Map × Option Nat :=
  match m.get_tile x y with
  | some (Tile.ScientificPoint point) => (m.set_tile x y Tile.Empty, some point.value)
  | _ => (m, none)

/-- Externals consumed by `Map::new` (`src/map/mod.rs`): `obstacleAt x y`
says whether the value-noise sample at `(x, y)` exceeds
`OBSTACLE_THRESHOLD`, and `rng` is the output stream of the seeded
`StdRng`, one natural per `gen_range` call (a `gen_range(lo..=hi)` call at
stream cursor `k` yields `lo + rng k % (hi - lo + 1)`, and
`gen_range(0..n)` yields `rng k % n`; every realizable sequence of
`gen_range` outputs is covered by some stream). -/
structure MapGenEnv where
  obstacleAt : Nat → Nat → Bool
  rng : Nat → Nat

/-- `BASE_COUNT_MIN` in `src/map/mod.rs`. -/
def BASE_COUNT_MIN : Nat := 5
/-- `BASE_COUNT_MAX` in `src/map/mod.rs`. -/
def BASE_COUNT_MAX : Nat := 15
/-- `BASE_AMOUNT_MIN` in `src/map/mod.rs`. -/
def BASE_AMOUNT_MIN : Nat := 5000
/-- `BASE_AMOUNT_MAX` in `src/map/mod.rs`. -/
def BASE_AMOUNT_MAX : Nat := 20000

/-- A `gen_range(lo..=hi)` draw at stream cursor `k`. -/
def genRangeIncl (env : MapGenEnv) (k lo hi : Nat) : Nat :=
  lo + env.rng k % (hi - lo + 1)

/-- The obstacle-generation double loop of `Map::new`: for each in-bounds
`(x, y)` whose noise sample exceeds the threshold, set the tile at index
`y * width + x` to `Obstacle`. -/
def obstaclePass (env : MapGenEnv) (width height : Nat) (tiles : List Tile) :
    List Tile :=
  (List.range height).foldl (fun ts y =>
    (List.range width).foldl (fun ts2 x =>
      if env.obstacleAt x y then ts2.set (y * width + x) Tile.Obstacle else ts2)
      ts)
    tiles

/-- The `find_valid_position` closure of `Map::new`: up to `fuel` (100)
attempts; each attempt draws an `x` and a `y` (two stream positions) and
succeeds when the tile there is `Empty`.  Returns the found position (if
any) together with the advanced stream cursor. -/
def findValidAux (env : MapGenEnv) (tiles : List Tile) (width height : Nat) :
    Nat → Nat → Option (Nat × Nat) × Nat
  | k, 0 => (none, k)
  | k, fuel + 1 =>
    let x := env.rng k % width
    let y := env.rng (k + 1) % height
    if tiles.get? (y * width + x) = some Tile.Empty then (some (x, y), k + 2)
    else findValidAux env tiles width height (k + 2) fuel

/-- One base-placement loop of `Map::new` (`count` iterations): each
iteration looks for a valid (empty) position and, on success, draws an
amount in `BASE_AMOUNT_MIN..=BASE_AMOUNT_MAX` and writes `mkTile amount`
there. -/
def placeBases (env : MapGenEnv) (width height : Nat) (mkTile : Nat → Tile) :
    List Tile → Nat → Nat → List Tile × Nat
  | tiles, k, 0 => (tiles, k)
  | tiles, k, count + 1 =>
    match findValidAux env tiles width height k 100 with
    | (some (x, y), k') =>
      let amount := genRangeIncl env k' BASE_AMOUNT_MIN BASE_AMOUNT_MAX
      placeBases env width height mkTile
        (tiles.set (y * width + x) (mkTile amount)) (k' + 1) count
    | (none, k') => placeBases env width height mkTile tiles k' count

/-- `Map::new`: all-`Empty` grid, obstacle pass, then energy, mineral and
scientific base placements (each base count drawn in
`BASE_COUNT_MIN..=BASE_COUNT_MAX`). -/
def Map.new (env : MapGenEnv) (width height seed : Nat) : Map :=
  let tiles0 := List.replicate (width * height) Tile.Empty
  let tiles1 := obstaclePass env width height tiles0
  let energyCount := genRangeIncl env 0 BASE_COUNT_MIN BASE_COUNT_MAX
  let r1 := placeBases env width height
    (fun a => Tile.Energy { amount := a, is_base := true }) tiles1 1 energyCount
  let mineralCount := genRangeIncl env r1.2 BASE_COUNT_MIN BASE_COUNT_MAX
  let r2 := placeBases env width height
    (fun a => Tile.Mineral { amount := a, is_base := true }) r1.1 (r1.2 + 1) mineralCount
  let scienceCount := genRangeIncl env r2.2 BASE_COUNT_MIN BASE_COUNT_MAX
  let r3 := placeBases env width height
    (fun a => Tile.ScientificPoint { value := a, is_base := true }) r2.1 (r2.2 + 1) scienceCount
  { width := width, height := height, tiles := r3.1, seed := seed }

/-- `src/station/sync.rs`: one explored tile of a knowledge store. -/
structure ExploredTile where
  tile : Tile
  version : Nat
  explorer_id : Option Nat
deriving DecidableEq, Repr

/-- `src/station/sync.rs`: one append-only merge-audit record. -/
structure MapUpdate where
  version : Nat
  positions : List Position
  timestamp : Nat
  robot_id : Nat
deriving DecidableEq, Repr

/-- `src/station/sync.rs`: a versioned knowledge store. -/
structure MapKnowledge where
  version : Nat
  explored_tiles : List ((Nat × Nat) × ExploredTile)
  updates_history : List MapUpdate
deriving DecidableEq, Repr

/-- `MapKnowledge::new`. -/
def MapKnowledge.new : MapKnowledge :=
  { version := 0, explored_tiles := [], updates_history := [] }

/-- The per-tile loop of `MapKnowledge::merge_robot_knowledge`: thread the
own store's tile table through the incoming tiles, collecting the updated
positions in iteration order.  A known position is overwritten only on a
strictly greater incoming version; an unknown position is inserted; both
are recorded as updated. -/
def mergeTiles (own : List ((Nat × Nat) × ExploredTile)) :
    List ((Nat × Nat) × ExploredTile) →
    List ((Nat × Nat) × ExploredTile) × List Position
  | [] => (own, [])
  | ((x, y), robotTile) :: rest =>
    match hmGet own (x, y) with
    | some stationTile =>
      if robotTile.version > stationTile.version then
        let r := mergeTiles (hmInsert own (x, y) robotTile) rest
        (r.1, Position.mk x y :: r.2)
      else
        mergeTiles own rest
    | none =>
      let r := mergeTiles (hmInsert own (x, y) robotTile) rest
      (r.1, Position.mk x y :: r.2)

/-- `MapKnowledge::merge_robot_knowledge` (the wall-clock `timestamp` read
from `SystemTime::now` is passed explicitly).  Returns the updated store
and the list of updated positions. -/
def MapKnowledge.merge_robot_knowledge (self : MapKnowledge)
    (robot_tiles : List ((Nat × Nat) × ExploredTile)) (robot_id timestamp : Nat) :
    MapKnowledge × List Position :=
  let r := mergeTiles self.explored_tiles robot_tiles
  if r.2.isEmpty then
    ({ self with explored_tiles := r.1 }, r.2)
  else
    ({ version := self.version + 1,
       explored_tiles := r.1,
       updates_history := self.updates_history ++
         [{ version := self.version + 1, positions := r.2,
            timestamp := timestamp, robot_id := robot_id }] }, r.2)

/-- The overlay loop of `MapKnowledge::generate_partial_map`: write every
explored tile whose position is inside `width × height` over the base map. -/
def overlayTiles (width height : Nat) :
    Map → List ((Nat × Nat) × ExploredTile) → Map
  | m, [] => m
  | m, ((x, y), exploredTile) :: rest =>
    overlayTiles width height
      (if x < width ∧ y < height then m.set_tile x y exploredTile.tile else m) rest

/-- `MapKnowledge::generate_partial_map`: start from `Map::new(width,
height, 0)` (the seed-0 procedurally generated map — the code comment
claims an empty map) and overlay the in-bounds explored tiles. -/
def MapKnowledge.generate_partial_map (self : MapKnowledge) (env : MapGenEnv)
    (width height : Nat) : Map :=
  overlayTiles width height (Map.new env width height 0) self.explored_tiles

/-- `MapKnowledge::has_conflicts`: some position shared by both stores has
equal versions but different tile content. -/
def MapKnowledge.has_conflicts (self other : MapKnowledge) : Bool :=
  self.explored_tiles.any (fun e =>
    match hmGet other.explored_tiles e.1 with
    | some otherTile =>
      decide (e.2.version = otherTile.version ∧ e.2.tile ≠ otherTile.tile)
    | none => false)

/-- The per-tile loop of `MapKnowledge::resolve_conflicts`: adopt `other`'s
tile on a strictly greater version, insert tiles unknown to `self`, keep
`self`'s tile otherwise. -/
def resolveTiles (self : List ((Nat × Nat) × ExploredTile)) :
    List ((Nat × Nat) × ExploredTile) → List ((Nat × Nat) × ExploredTile)
  | [] => self
  | (k, otherTile) :: rest =>
    match hmGet self k with
    | some selfTile =>
      if otherTile.version > selfTile.version then
        resolveTiles (hmInsert self k otherTile) rest
      else
        resolveTiles self rest
    | none => resolveTiles (hmInsert self k otherTile) rest

/-- `MapKnowledge::resolve_conflicts`: merge `other`'s tiles in, then set
`version` to `max(self.version, other.version) + 1`. -/
def MapKnowledge.resolve_conflicts (self other : MapKnowledge) : MapKnowledge :=
  { self with
    explored_tiles := resolveTiles self.explored_tiles other.explored_tiles,
    version := max self.version other.version + 1 }

/-- `src/station/communication.rs`: broadcasts and replies the station can
send. -/
inductive StationMessage where
  | ResourcesUpdate
      (energy_resources : List (Position × Nat))
      (mineral_resources : List (Position × Nat))
      (scientific_resources : List (Position × Nat))
  | ResourceUpdate (resource_type : ResourceType) (position : Position)
      (remaining : Nat)
  | Acknowledgement (message : String)
deriving DecidableEq, Repr

/-- `src/station/communication.rs`: messages robots send to the station. -/
inductive RobotMessage where
  | ResourceDiscovered (resource_type : ResourceType) (position : Position)
  | ResourceConsumed (resource_type : ResourceType) (position : Position)
      (amount : Nat) (robot_id : Nat)
  | RequestResourcesState
deriving DecidableEq, Repr

/-- Observable actions of one `process_messages` iteration, in execution
order: a ledger-table write (remove or insert), a terrain-map mutation, a
broadcast through every registered sender, a send to one robot's sender. -/
inductive Event where
  | ledgerWrite (resource_type : ResourceType) (position : Position)
      (remaining : Nat)
  | mapConsume (resource_type : ResourceType) (position : Position)
      (amount : Nat)
  | broadcast (msg : StationMessage) (targets : List Nat)
  | send (robot : Nat) (msg : StationMessage)
deriving DecidableEq, Repr

/-- `src/station/communication.rs`: the station's ledger state; the robot
channel itself is external, `robot_senders` keeps the registered robot ids. -/
structure StationCommunication where
  robot_senders : List Nat
  energy_resources : List (Position × Nat)
  mineral_resources : List (Position × Nat)
  scientific_resources : List (Position × Nat)
deriving DecidableEq, Repr

/-- `StationCommunication::new`. -/
def StationCommunication.new : StationCommunication :=
  { robot_senders := [], energy_resources := [],
    mineral_resources := [], scientific_resources := [] }

/-- The `Acknowledgement` send at the end of a discover/consume arm: only
performed when the robot id is registered. -/
def ackEvents (st : StationCommunication) (robot_id : Nat) (text : String) :
    List Event :=
  if st.robot_senders.contains robot_id then
    [Event.send robot_id (StationMessage.Acknowledgement text)]
  else []

/-- The `ResourceDiscovered` arm of `StationCommunication::process_messages`:
if the terrain tile at the position matches the reported kind, record the
tile's current amount in the matching ledger table; then acknowledge. -/
def processDiscovered (st : StationCommunication) (map : Map) (robot_id : Nat)
    (resource_type : ResourceType) (position : Position) :
    StationCommunication × List Event :=
  let st' :=
    match map.get_tile position.x position.y with
    | some tile =>
      match resource_type, tile with
      | ResourceType.Energy, Tile.Energy energy =>
        { st with energy_resources :=
            hmInsert st.energy_resources position energy.amount }
      | ResourceType.Minerals, Tile.Mineral mineral =>
        { st with mineral_resources :=
            hmInsert st.mineral_resources position mineral.amount }
      | ResourceType.ScientificData, Tile.ScientificPoint point =>
        { st with scientific_resources :=
            hmInsert st.scientific_resources position point.value }
      | _, _ => st
    | none => st
  (st', ackEvents st robot_id "Resource discovered registered")

/-- The `ResourceConsumed` arm of `StationCommunication::process_messages`,
with the emitted events in the statement order of the source: for
`Energy`/`Minerals`, compute `new_amount = current.saturating_sub(amount)`
(0 when the entry is absent), remove the entry when the new amount reaches
zero or re-insert it when positive, broadcast
`ResourceUpdate { remaining = new_amount }` to every registered robot, and
only then mutate the terrain map; for `ScientificData`, remove the entry
and broadcast `remaining = 0` only when the entry existed, then extract
the terrain tile; finally acknowledge the originating robot. -/
def processConsumed (st : StationCommunication) (map : Map) (robot_id : Nat)
    (resource_type : ResourceType) (position : Position) (amount : Nat) :
    StationCommunication × Map × List Event :=
  match resource_type with
  | ResourceType.Energy =>
    let r :=
      match hmGet st.energy_resources position with
      | some current =>
        let new_amount := current - amount
        if new_amount = 0 then (hmRemove st.energy_resources position, 0)
        else (hmInsert st.energy_resources position new_amount, new_amount)
      | none => (st.energy_resources, 0)
    let writeEvents :=
      match hmGet st.energy_resources position with
      | some _ => [Event.ledgerWrite ResourceType.Energy position r.2]
      | none => []
    let st' := { st with energy_resources := r.1 }
    let map' := (map.consume_energy position.x position.y amount).1
    (st', map',
      writeEvents ++
      [Event.broadcast
        (StationMessage.ResourceUpdate ResourceType.Energy position r.2)
        st.robot_senders,
       Event.mapConsume ResourceType.Energy position amount] ++
      ackEvents st robot_id "Resource consumption registered")
  | ResourceType.Minerals =>
    let r :=
      match hmGet st.mineral_resources position with
      | some current =>
        let new_amount := current - amount
        if new_amount = 0 then (hmRemove st.mineral_resources position, 0)
        else (hmInsert st.mineral_resources position new_amount, new_amount)
      | none => (st.mineral_resources, 0)
    let writeEvents :=
      match hmGet st.mineral_resources position with
      | some _ => [Event.ledgerWrite ResourceType.Minerals position r.2]
      | none => []
    let st' := { st with mineral_resources := r.1 }
    let map' := (map.consume_mineral position.x position.y amount).1
    (st', map',
      writeEvents ++
      [Event.broadcast
        (StationMessage.ResourceUpdate ResourceType.Minerals position r.2)
        st.robot_senders,
       Event.mapConsume ResourceType.Minerals position amount] ++
      ackEvents st robot_id "Resource consumption registered")
  | ResourceType.ScientificData =>
    let exists0 := hmContains st.scientific_resources position
    let st' :=
      if exists0 then
        { st with scientific_resources :=
            hmRemove st.scientific_resources position }
      else st
    let scienceEvents :=
      if exists0 then
        [Event.ledgerWrite ResourceType.ScientificData position 0,
         Event.broadcast
           (StationMessage.ResourceUpdate ResourceType.ScientificData position 0)
           st.robot_senders]
      else []
    let map' := (map.extract_scientific_data position.x position.y).1
    (st', map',
      scienceEvents ++
      [Event.mapConsume ResourceType.ScientificData position amount] ++
      ackEvents st robot_id "Resource consumption registered")

/-- The claim-C5 ordering property of an event trace: every
`ResourceUpdate` broadcast for a consumption is preceded by a terrain-map
mutation for the same kind and position. -/
def broadcastAfterMapConsume (events : List Event) : Bool :=
  (List.range events.length).all (fun i =>
    match events.get? i with
    | some (Event.broadcast (StationMessage.ResourceUpdate rt pos _) _) =>
      (List.range i).any (fun j =>
        match events.get? j with
        | some (Event.mapConsume rt' pos' _) =>
          decide (rt' = rt ∧ pos' = pos)
        | _ => false)
    | _ => true)

/-- The terrain amount a `ResourceDiscovered` message would record: the
amount of the tile at the position when the tile's kind matches the
reported kind (the match arms of the discover handler, read off the input). -/
def discoveredAmount (map : Map) (resource_type : ResourceType) (pos : Position) :
    Option Nat :=
  match map.get_tile pos.x pos.y, resource_type with
  | some (Tile.Energy energy), ResourceType.Energy => some energy.amount
  | some (Tile.Mineral mineral), ResourceType.Minerals => some mineral.amount
  | some (Tile.ScientificPoint point), ResourceType.ScientificData => some point.value
  | _, _ => none

/-- `src/robot/communication.rs`: a robot's local caches and pending
consumption queue; the channel endpoints are external. -/
structure RobotCommunication where
  robot_id : Nat
  local_energy_resources : List (Position × Nat)
  local_mineral_resources : List (Position × Nat)
  local_scientific_resources : List (Position × Nat)
  pending_consumed_resources : List (ResourceType × Position × Nat)
deriving DecidableEq, Repr

/-- `RobotCommunication::new`. -/
def RobotCommunication.new (robot_id : Nat) : RobotCommunication :=
  { robot_id := robot_id, local_energy_resources := [],
    local_mineral_resources := [], local_scientific_resources := [],
    pending_consumed_resources := [] }

/-- `RobotCommunication::register_consumed_resource`: optimistically
decrement the local cache (saturating; the entry is removed when it
reaches zero; a scientific entry is removed unconditionally; a missing
entry is left missing), then queue the original `amount` for the later
flush. -/
def RobotCommunication.register_consumed_resource (rc : RobotCommunication)
    (resource_type : ResourceType) (position : Position) (amount : Nat) :
    RobotCommunication :=
  let rc' :=
    match resource_type with
    | ResourceType.Energy =>
      match hmGet rc.local_energy_resources position with
      | some current =>
        let current' := current - amount
        if current' = 0 then
          { rc with local_energy_resources :=
              hmRemove rc.local_energy_resources position }
        else
          { rc with local_energy_resources :=
              hmInsert rc.local_energy_resources position current' }
      | none => rc
    | ResourceType.Minerals =>
      match hmGet rc.local_mineral_resources position with
      | some current =>
        let current' := current - amount
        if current' = 0 then
          { rc with local_mineral_resources :=
              hmRemove rc.local_mineral_resources position }
        else
          { rc with local_mineral_resources :=
              hmInsert rc.local_mineral_resources position current' }
      | none => rc
    | ResourceType.ScientificData =>
      { rc with local_scientific_resources :=
          hmRemove rc.local_scientific_resources position }
  { rc' with pending_consumed_resources :=
      rc'.pending_consumed_resources ++ [(resource_type, position, amount)] }

/-- One iteration of `RobotCommunication::process_station_messages`: apply
a received station message to the local caches. -/
def RobotCommunication.applyStationMessage (rc : RobotCommunication)
    (msg : StationMessage) : RobotCommunication :=
  match msg with
  | StationMessage.ResourcesUpdate e m s =>
    { rc with local_energy_resources := e, local_mineral_resources := m,
              local_scientific_resources := s }
  | StationMessage.ResourceUpdate resource_type position remaining =>
    match resource_type with
    | ResourceType.Energy =>
      if remaining > 0 then
        { rc with local_energy_resources :=
            hmInsert rc.local_energy_resources position remaining }
      else
        { rc with local_energy_resources :=
            hmRemove rc.local_energy_resources position }
    | ResourceType.Minerals =>
      if remaining > 0 then
        { rc with local_mineral_resources :=
            hmInsert rc.local_mineral_resources position remaining }
      else
        { rc with local_mineral_resources :=
            hmRemove rc.local_mineral_resources position }
    | ResourceType.ScientificData =>
      if remaining > 0 then
        { rc with local_scientific_resources :=
            hmInsert rc.local_scientific_resources position remaining }
      else
        { rc with local_scientific_resources :=
            hmRemove rc.local_scientific_resources position }
  | StationMessage.Acknowledgement _ => rc

/-- `RobotCommunication::is_resource_available`: `Energy`/`Minerals`
compare the cached amount with the requirement; `ScientificData` only
checks presence. -/
def RobotCommunication.is_resource_available (rc : RobotCommunication)
    (resource_type : ResourceType) (position : Position)
    (required_amount : Nat) : Bool :=
  match resource_type with
  | ResourceType.Energy =>
    match hmGet rc.local_energy_resources position with
    | some amount => amount ≥ required_amount
    | none => false
  | ResourceType.Minerals =>
    match hmGet rc.local_mineral_resources position with
    | some amount => amount ≥ required_amount
    | none => false
  | ResourceType.ScientificData =>
    hmContains rc.local_scientific_resources position

/-! Association-list lemmas shared by the claim proofs. -/

theorem hmGet_hmInsert_self {κ α : Type} [DecidableEq κ]
    (m : List (κ × α)) (k : κ) (v : α) : hmGet (hmInsert m k v) k = some v := by
  induction m with
  | nil => simp [hmInsert, hmGet]
  | cons e rest ih =>
    obtain ⟨k', v'⟩ := e
    by_cases h : k' = k
    · simp [hmInsert, hmGet, h]
    · simp [hmInsert, hmGet, h, ih]

theorem hmGet_hmInsert_ne {κ α : Type} [DecidableEq κ]
    (m : List (κ × α)) (k k' : κ) (v : α) (h : k ≠ k') :
    hmGet (hmInsert m k v) k' = hmGet m k' := by
  induction m with
  | nil => simp [hmInsert, hmGet, h]
  | cons e rest ih =>
    obtain ⟨k0, v0⟩ := e
    by_cases h0 : k0 = k
    · subst h0
      simp [hmInsert, hmGet, h]
    · simp only [hmInsert, if_neg h0]
      by_cases h1 : k0 = k'
      · simp [hmGet, h1]
      · simp [hmGet, h1, ih]

theorem hmGet_hmRemove_self {κ α : Type} [DecidableEq κ]
    (m : List (κ × α)) (k : κ) : hmGet (hmRemove m k) k = none := by
  induction m with
  | nil => simp [hmRemove, hmGet]
  | cons e rest ih =>
    obtain ⟨k0, v0⟩ := e
    by_cases h0 : k0 = k
    · simpa [hmRemove, List.filter, h0] using ih
    · simpa [hmRemove, List.filter, h0, hmGet] using ih

theorem hmGet_hmRemove_ne {κ α : Type} [DecidableEq κ]
    (m : List (κ × α)) (k k' : κ) (h : k ≠ k') :
    hmGet (hmRemove m k) k' = hmGet m k' := by
  induction m with
  | nil => simp [hmRemove, hmGet]
  | cons e rest ih =>
    obtain ⟨k0, v0⟩ := e
    by_cases h0 : k0 = k
    · subst h0
      have h1 : ¬ k0 = k' := h
      simpa [hmRemove, List.filter, hmGet, h1] using ih
    · by_cases h1 : k0 = k'
      · subst h1
        simp [hmRemove, List.filter, hmGet, h0, Ne.symm h]
      · simpa [hmRemove, List.filter, hmGet, h0, h1] using ih

theorem hmGet_mem {κ α : Type} [DecidableEq κ]
    {m : List (κ × α)} {k : κ} {v : α} (h : hmGet m k = some v) : (k, v) ∈ m := by
  induction m with
  | nil => simp [hmGet] at h
  | cons e rest ih =>
    obtain ⟨k0, v0⟩ := e
    by_cases h0 : k0 = k
    · subst h0
      simp [hmGet] at h
      subst h
      exact List.mem_cons_self _ _
    · simp [hmGet, h0] at h
      exact List.mem_cons_of_mem _ (ih h)

theorem hmGet_of_mem_nodup {κ α : Type} [DecidableEq κ]
    {m : List (κ × α)} {k : κ} {v : α}
    (hnd : (m.map Prod.fst).Nodup) (h : (k, v) ∈ m) : hmGet m k = some v := by
  induction m with
  | nil => simp at h
  | cons e rest ih =>
    obtain ⟨k0, v0⟩ := e
    simp only [List.map_cons, List.nodup_cons] at hnd
    rcases List.mem_cons.mp h with h1 | h1
    · injection h1 with h2 h3
      subst h2
      subst h3
      simp [hmGet]
    · by_cases h0 : k0 = k
      · exfalso
        exact hnd.1 (h0 ▸ (List.mem_map.mpr ⟨(k, v), h1, rfl⟩))
      · simpa [hmGet, h0] using ih hnd.2 h1


/-! Lemmas about the merge loop. -/

theorem mergeTiles_get_notmem (own rts : List ((Nat × Nat) × ExploredTile))
    (k : Nat × Nat) (h : k ∉ rts.map Prod.fst) :
    hmGet (mergeTiles own rts).1 k = hmGet own k := by
  induction rts generalizing own with
  | nil => rfl
  | cons e rest ih =>
    obtain ⟨⟨x, y⟩, rt⟩ := e
    simp only [List.map_cons, List.mem_cons, not_or] at h
    have hne : (x, y) ≠ k := fun hh => h.1 hh.symm
    rcases Option.eq_none_or_eq_some (hmGet own (x, y)) with hg | ⟨st, hg⟩
    · simp only [mergeTiles, hg]
      exact (ih _ h.2).trans (hmGet_hmInsert_ne _ _ _ _ hne)
    · by_cases hv : rt.version > st.version
      · simp only [mergeTiles, hg, if_pos hv]
        exact (ih _ h.2).trans (hmGet_hmInsert_ne _ _ _ _ hne)
      · simp only [mergeTiles, hg, if_neg hv]
        exact ih _ h.2

theorem mergeTiles_updated_keys (own rts : List ((Nat × Nat) × ExploredTile))
    (p : Position) (hp : p ∈ (mergeTiles own rts).2) :
    (p.x, p.y) ∈ rts.map Prod.fst := by
  induction rts generalizing own with
  | nil => simp [mergeTiles] at hp
  | cons e rest ih =>
    obtain ⟨⟨x, y⟩, rt⟩ := e
    simp only [List.map_cons, List.mem_cons]
    rcases Option.eq_none_or_eq_some (hmGet own (x, y)) with hg | ⟨st, hg⟩
    · simp only [mergeTiles, hg] at hp
      rcases List.mem_cons.mp hp with h1 | h1
      · subst h1
        exact Or.inl rfl
      · exact Or.inr (ih _ h1)
    · by_cases hv : rt.version > st.version
      · simp only [mergeTiles, hg, if_pos hv] at hp
        rcases List.mem_cons.mp hp with h1 | h1
        · subst h1
          exact Or.inl rfl
        · exact Or.inr (ih _ h1)
      · simp only [mergeTiles, hg, if_neg hv] at hp
        exact Or.inr (ih _ hp)

theorem mergeTiles_no_update (own rts : List ((Nat × Nat) × ExploredTile))
    (h : (mergeTiles own rts).2 = []) : (mergeTiles own rts).1 = own := by
  induction rts generalizing own with
  | nil => rfl
  | cons e rest ih =>
    obtain ⟨⟨x, y⟩, rt⟩ := e
    rcases Option.eq_none_or_eq_some (hmGet own (x, y)) with hg | ⟨st, hg⟩
    · simp only [mergeTiles, hg] at h
      exact absurd h (List.cons_ne_nil _ _)
    · by_cases hv : rt.version > st.version
      · simp only [mergeTiles, hg, if_pos hv] at h
        exact absurd h (List.cons_ne_nil _ _)
      · simp only [mergeTiles, hg, if_neg hv] at h ⊢
        exact ih _ h

theorem mergeTiles_per_entry (rts : List ((Nat × Nat) × ExploredTile)) :
    ∀ own, (rts.map Prod.fst).Nodup → ∀ x y c, ((x, y), c) ∈ rts →
    (hmGet own (x, y) = none →
      hmGet (mergeTiles own rts).1 (x, y) = some c ∧
      Position.mk x y ∈ (mergeTiles own rts).2) ∧
    (∀ old, hmGet own (x, y) = some old →
      (old.version < c.version →
        hmGet (mergeTiles own rts).1 (x, y) = some c ∧
        Position.mk x y ∈ (mergeTiles own rts).2) ∧
      (c.version ≤ old.version →
        hmGet (mergeTiles own rts).1 (x, y) = some old ∧
        Position.mk x y ∉ (mergeTiles own rts).2)) := by
  induction rts with
  | nil =>
    intro own _ x y c hmem
    simp at hmem
  | cons e rest ih =>
    intro own hnd x y c hmem
    obtain ⟨⟨x', y'⟩, c'⟩ := e
    simp only [List.map_cons, List.nodup_cons] at hnd
    rcases List.mem_cons.mp hmem with h1 | h1
    · injection h1 with hk hc
      injection hk with hx hy
      subst hx
      subst hy
      subst hc
      constructor
      · intro hg
        simp only [mergeTiles, hg]
        refine ⟨?_, List.mem_cons_self _ _⟩
        rw [mergeTiles_get_notmem _ _ _ hnd.1]
        exact hmGet_hmInsert_self _ _ _
      · intro old hold
        have hst : c.version > old.version ∨ c.version ≤ old.version := by omega
        constructor
        · intro hv
          simp only [mergeTiles, hold, if_pos (show c.version > old.version from hv)]
          refine ⟨?_, List.mem_cons_self _ _⟩
          rw [mergeTiles_get_notmem _ _ _ hnd.1]
          exact hmGet_hmInsert_self _ _ _
        · intro hv
          have hnv : ¬ c.version > old.version := by omega
          simp only [mergeTiles, hold, if_neg hnv]
          refine ⟨?_, ?_⟩
          · rw [mergeTiles_get_notmem _ _ _ hnd.1]
            exact hold
          · intro hmem2
            exact hnd.1 (mergeTiles_updated_keys _ _ _ hmem2)
    · have hkne : ((x' : Nat), (y' : Nat)) ≠ (x, y) := by
        intro hk
        apply hnd.1
        rw [hk]
        exact List.mem_map.mpr ⟨((x, y), c), h1, rfl⟩
      have hpne : Position.mk x' y' ≠ Position.mk x y := by
        intro hp
        injection hp with hpx hpy
        exact hkne (by rw [hpx, hpy])
      have ihr := ih own hnd.2 x y c h1
      rcases Option.eq_none_or_eq_some (hmGet own (x', y')) with hg' | ⟨st', hg'⟩
      · have hpres : hmGet (hmInsert own (x', y') c') (x, y) = hmGet own (x, y) :=
          hmGet_hmInsert_ne _ _ _ _ hkne
        have ihr' := ih (hmInsert own (x', y') c') hnd.2 x y c h1
        simp only [mergeTiles, hg']
        constructor
        · intro hg
          have r := ihr'.1 (hpres.trans hg)
          exact ⟨r.1, List.mem_cons_of_mem _ r.2⟩
        · intro old hold
          have r := ihr'.2 old (hpres.trans hold)
          refine ⟨fun hv => ⟨(r.1 hv).1, List.mem_cons_of_mem _ (r.1 hv).2⟩, fun hv => ⟨(r.2 hv).1, ?_⟩⟩
          intro hmem2
          rcases List.mem_cons.mp hmem2 with h2 | h2
          · exact hpne h2.symm
          · exact (r.2 hv).2 h2
      · by_cases hv' : c'.version > st'.version
        · have hpres : hmGet (hmInsert own (x', y') c') (x, y) = hmGet own (x, y) :=
            hmGet_hmInsert_ne _ _ _ _ hkne
          have ihr' := ih (hmInsert own (x', y') c') hnd.2 x y c h1
          simp only [mergeTiles, hg', if_pos hv']
          constructor
          · intro hg
            have r := ihr'.1 (hpres.trans hg)
            exact ⟨r.1, List.mem_cons_of_mem _ r.2⟩
          · intro old hold
            have r := ihr'.2 old (hpres.trans hold)
            refine ⟨fun hv => ⟨(r.1 hv).1, List.mem_cons_of_mem _ (r.1 hv).2⟩, fun hv => ⟨(r.2 hv).1, ?_⟩⟩
            intro hmem2
            rcases List.mem_cons.mp hmem2 with h2 | h2
            · exact hpne h2.symm
            · exact (r.2 hv).2 h2
        · simp only [mergeTiles, hg', if_neg hv']
          exact ihr

/-! Lemmas about the conflict-resolution loop. -/

theorem resolveTiles_get_notmem (self other : List ((Nat × Nat) × ExploredTile))
    (k : Nat × Nat) (h : k ∉ other.map Prod.fst) :
    hmGet (resolveTiles self other) k = hmGet self k := by
  induction other generalizing self with
  | nil => rfl
  | cons e rest ih =>
    obtain ⟨k0, ot⟩ := e
    simp only [List.map_cons, List.mem_cons, not_or] at h
    have hne : k0 ≠ k := fun hh => h.1 hh.symm
    rcases Option.eq_none_or_eq_some (hmGet self k0) with hg | ⟨st, hg⟩
    · simp only [resolveTiles, hg]
      exact (ih _ h.2).trans (hmGet_hmInsert_ne _ _ _ _ hne)
    · by_cases hv : ot.version > st.version
      · simp only [resolveTiles, hg, if_pos hv]
        exact (ih _ h.2).trans (hmGet_hmInsert_ne _ _ _ _ hne)
      · simp only [resolveTiles, hg, if_neg hv]
        exact ih _ h.2

theorem resolveTiles_get (other : List ((Nat × Nat) × ExploredTile)) :
    ∀ self, (other.map Prod.fst).Nodup → ∀ k,
    hmGet (resolveTiles self other) k =
      match hmGet self k, hmGet other k with
      | some st, some ot => some (if ot.version > st.version then ot else st)
      | some st, none => some st
      | none, some ot => some ot
      | none, none => none := by
  induction other with
  | nil =>
    intro self _ k
    rcases Option.eq_none_or_eq_some (hmGet self k) with hg | ⟨st, hg⟩ <;>
      simp [resolveTiles, hmGet, hg]
  | cons e rest ih =>
    intro self hnd k
    obtain ⟨k0, ot0⟩ := e
    simp only [List.map_cons, List.nodup_cons] at hnd
    by_cases hk : k0 = k
    · subst hk
      have hR : hmGet ((k0, ot0) :: rest) k0 = some ot0 := by simp [hmGet]
      rcases Option.eq_none_or_eq_some (hmGet self k0) with hg | ⟨st, hg⟩
      · simp only [resolveTiles, hg]
        rw [resolveTiles_get_notmem _ _ _ hnd.1, hmGet_hmInsert_self, hR]
      · by_cases hv : ot0.version > st.version
        · simp only [resolveTiles, hg, if_pos hv]
          rw [resolveTiles_get_notmem _ _ _ hnd.1, hmGet_hmInsert_self, hR]
          simp [hv]
        · simp only [resolveTiles, hg, if_neg hv]
          rw [resolveTiles_get_notmem _ _ _ hnd.1, hg, hR]
          simp [hv]
    · have hT : hmGet ((k0, ot0) :: rest) k = hmGet rest k := by simp [hmGet, hk]
      rcases Option.eq_none_or_eq_some (hmGet self k0) with hg | ⟨st, hg⟩
      · simp only [resolveTiles, hg]
        rw [ih _ hnd.2 k, hmGet_hmInsert_ne _ _ _ _ hk, hT]
      · by_cases hv : ot0.version > st.version
        · simp only [resolveTiles, hg, if_pos hv]
          rw [ih _ hnd.2 k, hmGet_hmInsert_ne _ _ _ _ hk, hT]
        · simp only [resolveTiles, hg, if_neg hv]
          rw [ih _ hnd.2 k, hT]

/-! Lemmas about the map-generation model. -/

theorem findValidAux_found (env : MapGenEnv) (tiles : List Tile) (w h : Nat) :
    ∀ fuel k x y k', findValidAux env tiles w h k fuel = (some (x, y), k') →
      tiles.get? (y * w + x) = some Tile.Empty := by
  intro fuel
  induction fuel with
  | zero =>
    intro k x y k' hf
    simp [findValidAux] at hf
  | succ n ih =>
    intro k x y k' hf
    simp only [findValidAux] at hf
    by_cases hc : tiles.get? (env.rng (k + 1) % h * w + env.rng k % w) = some Tile.Empty
    · rw [if_pos hc] at hf
      injection hf with h1 h2
      injection h1 with h3
      injection h3 with hx hy
      subst hx
      subst hy
      exact hc
    · rw [if_neg hc] at hf
      exact ih (k + 2) x y k' hf

theorem findValidAux_step (env : MapGenEnv) (tiles : List Tile) (w h k fuel : Nat)
    (hc : tiles.get? (env.rng (k + 1) % h * w + env.rng k % w) = some Tile.Empty) :
    findValidAux env tiles w h k (fuel + 1) =
      (some (env.rng k % w, env.rng (k + 1) % h), k + 2) := by
  simp only [findValidAux, hc, if_pos]

theorem placeBases_preserve (env : MapGenEnv) (w h : Nat) (mk : Nat → Tile) :
    ∀ count tiles k i t, tiles.get? i = some t → t ≠ Tile.Empty →
      (placeBases env w h mk tiles k count).1.get? i = some t := by
  intro count
  induction count with
  | zero =>
    intro tiles k i t ht hne
    exact ht
  | succ n ih =>
    intro tiles k i t ht hne
    rcases hf : findValidAux env tiles w h k 100 with ⟨o, k'⟩
    cases o with
    | none =>
      simp only [placeBases, hf]
      exact ih tiles k' i t ht hne
    | some p =>
      obtain ⟨x, y⟩ := p
      have hempty := findValidAux_found env tiles w h 100 k x y k' hf
      have hii : y * w + x ≠ i := by
        intro he
        rw [he, ht] at hempty
        exact hne (Option.some.inj hempty)
      simp only [placeBases, hf]
      apply ih
      · rw [List.get?_eq_getElem?, List.getElem?_set_ne hii, ← List.get?_eq_getElem?]
        exact ht
      · exact hne

theorem placeBases_step_found (env : MapGenEnv) (w h : Nat) (mk : Nat → Tile)
    (tiles : List Tile) (k count x y k' : Nat)
    (hf : findValidAux env tiles w h k 100 = (some (x, y), k')) :
    placeBases env w h mk tiles k (count + 1) =
      placeBases env w h mk
        (tiles.set (y * w + x) (mk (genRangeIncl env k' BASE_AMOUNT_MIN BASE_AMOUNT_MAX)))
        (k' + 1) count := by
  simp only [placeBases, hf]

theorem foldl_length_preserved {β : Type} (f : List Tile → β → List Tile)
    (hf : ∀ ts b, (f ts b).length = ts.length) :
    ∀ (l : List β) (init : List Tile), (l.foldl f init).length = init.length := by
  intro l
  induction l with
  | nil =>
    intro init
    rfl
  | cons b rest ih =>
    intro init
    rw [List.foldl_cons, ih, hf]

theorem obstaclePass_length (env : MapGenEnv) (w h : Nat) (tiles : List Tile) :
    (obstaclePass env w h tiles).length = tiles.length := by
  unfold obstaclePass
  apply foldl_length_preserved
  intro ts y
  apply foldl_length_preserved
  intro ts2 x
  by_cases ho : env.obstacleAt x y
  · simp [ho]
  · simp [ho]

theorem placeBases_length (env : MapGenEnv) (w h : Nat) (mk : Nat → Tile) :
    ∀ count tiles k, (placeBases env w h mk tiles k count).1.length = tiles.length := by
  intro count
  induction count with
  | zero =>
    intro tiles k
    rfl
  | succ n ih =>
    intro tiles k
    rcases hf : findValidAux env tiles w h k 100 with ⟨o, k'⟩
    cases o with
    | none =>
      simp only [placeBases, hf]
      exact ih tiles k'
    | some p =>
      obtain ⟨x, y⟩ := p
      simp only [placeBases, hf]
      rw [ih, List.length_set]

theorem Map.new_tiles_length (env : MapGenEnv) (w h seed : Nat) :
    (Map.new env w h seed).tiles.length = w * h := by
  simp only [Map.new]
  rw [placeBases_length, placeBases_length, placeBases_length, obstaclePass_length,
    List.length_replicate]

theorem Map.new_get_preserve (env : MapGenEnv) (w h seed i : Nat) (t : Tile)
    (ht : (obstaclePass env w h (List.replicate (w * h) Tile.Empty)).get? i = some t)
    (hne : t ≠ Tile.Empty) :
    (Map.new env w h seed).tiles.get? i = some t := by
  simp only [Map.new]
  exact placeBases_preserve _ _ _ _ _ _ _ _ _
    (placeBases_preserve _ _ _ _ _ _ _ _ _
      (placeBases_preserve _ _ _ _ _ _ _ _ _ ht hne) hne) hne

/-! Lemmas about tile reads and writes. -/

theorem get_tile_some (m : Map) (x y : Nat) (t : Tile) (h : m.get_tile x y = some t) :
    ¬(x ≥ m.width ∨ y ≥ m.height) ∧ y * m.width + x < m.tiles.length ∧
      m.tiles.get? (y * m.width + x) = some t := by
  by_cases hb : x ≥ m.width ∨ y ≥ m.height
  · simp [Map.get_tile, hb] at h
  · refine ⟨hb, ?_, ?_⟩
    · simp only [Map.get_tile, if_neg hb] at h
      by_contra hlen
      rw [List.get?_eq_getElem?, List.getElem?_eq_none (by omega)] at h
      exact Option.noConfusion h
    · simpa [Map.get_tile, hb] using h

theorem set_tile_get (m : Map) (x y : Nat) (t : Tile)
    (hb : ¬(x ≥ m.width ∨ y ≥ m.height)) (hlen : y * m.width + x < m.tiles.length) :
    (m.set_tile x y t).get_tile x y = some t := by
  simp only [Map.set_tile, if_neg hb, Map.get_tile]
  rw [List.get?_eq_getElem?, List.getElem?_set_self hlen]

/--
C1: for a `ResourceConsumed` message whose `(kind, position)` has a ledger
record with remaining balance `r` (kinds `Energy` and `Minerals`), the
post-consumption balance is `r - amount` (saturating, never negative), the
amount deducted is `min amount r`, and the entry is removed exactly when
the post-consumption balance is zero; and `Map::consume_energy` /
`Map::consume_mineral` on a matching tile return `some (min amount tile)`,
leaving the tile `Empty` exactly on full depletion.
-/
theorem consumed_clamps_and_saturates (st : StationCommunication) (map : Map)
    (robot : Nat) (pos : Position) (amount r : Nat) :
    (hmGet st.energy_resources pos = some r →
      (hmGet (processConsumed st map robot ResourceType.Energy pos amount).1.energy_resources pos).getD 0
        = r - amount ∧
      r - (hmGet (processConsumed st map robot ResourceType.Energy pos amount).1.energy_resources pos).getD 0
        = min amount r ∧
      (hmGet (processConsumed st map robot ResourceType.Energy pos amount).1.energy_resources pos = none
        ↔ r - amount = 0)) ∧
    (hmGet st.mineral_resources pos = some r →
      (hmGet (processConsumed st map robot ResourceType.Minerals pos amount).1.mineral_resources pos).getD 0
        = r - amount ∧
      r - (hmGet (processConsumed st map robot ResourceType.Minerals pos amount).1.mineral_resources pos).getD 0
        = min amount r ∧
      (hmGet (processConsumed st map robot ResourceType.Minerals pos amount).1.mineral_resources pos = none
        ↔ r - amount = 0)) ∧
    (∀ x y e, map.get_tile x y = some (Tile.Energy e) →
      (map.consume_energy x y amount).2 = some (min amount e.amount) ∧
      (map.consume_energy x y amount).1.get_tile x y =
        some (if e.amount - amount = 0 then Tile.Empty
              else Tile.Energy { amount := e.amount - amount, is_base := e.is_base })) ∧
    (∀ x y mi, map.get_tile x y = some (Tile.Mineral mi) →
      (map.consume_mineral x y amount).2 = some (min amount mi.amount) ∧
      (map.consume_mineral x y amount).1.get_tile x y =
        some (if mi.amount - amount = 0 then Tile.Empty
              else Tile.Mineral { amount := mi.amount - amount, is_base := mi.is_base })) := by
  refine ⟨?_, ?_, ?_, ?_⟩
  · intro hg
    simp only [processConsumed, hg]
    by_cases hz : r - amount = 0
    · rw [if_pos hz]
      dsimp only
      rw [hmGet_hmRemove_self]
      refine ⟨by simp; omega, by simp; omega, by simp [hz]⟩
    · rw [if_neg hz]
      dsimp only
      rw [hmGet_hmInsert_self]
      refine ⟨by simp, by simp; omega, by simp [hz]⟩
  · intro hg
    simp only [processConsumed, hg]
    by_cases hz : r - amount = 0
    · rw [if_pos hz]
      dsimp only
      rw [hmGet_hmRemove_self]
      refine ⟨by simp; omega, by simp; omega, by simp [hz]⟩
    · rw [if_neg hz]
      dsimp only
      rw [hmGet_hmInsert_self]
      refine ⟨by simp, by simp; omega, by simp [hz]⟩
  · intro x y e hge
    obtain ⟨hb, hlen, _⟩ := get_tile_some map x y _ hge
    simp only [Map.consume_energy, hge]
    refine ⟨trivial, ?_⟩
    rw [set_tile_get map x y _ hb hlen]
    have hmin : e.amount - min amount e.amount = e.amount - amount := by omega
    rw [hmin]
  · intro x y mi hge
    obtain ⟨hb, hlen, _⟩ := get_tile_some map x y _ hge
    simp only [Map.consume_mineral, hge]
    refine ⟨trivial, ?_⟩
    rw [set_tile_get map x y _ hb hlen]
    have hmin : mi.amount - min amount mi.amount = mi.amount - amount := by omega
    rw [hmin]

/-- Concrete instantiation of the C1 theorem: ledger entry of 5 at (0, 0),
consuming 3 leaves 2. -/
theorem consumed_clamps_and_saturates_witness :
    hmGet ([(Position.mk 0 0, 5)] : List (Position × Nat)) (Position.mk 0 0) = some 5 ∧
    (hmGet (processConsumed ⟨[1], [(Position.mk 0 0, 5)], [], []⟩ ⟨1, 1, [Tile.Empty], 0⟩
        1 ResourceType.Energy (Position.mk 0 0) 3).1.energy_resources (Position.mk 0 0)).getD 0
      = 5 - 3 :=
  ⟨by decide,
    ((consumed_clamps_and_saturates ⟨[1], [(Position.mk 0 0, 5)], [], []⟩
      ⟨1, 1, [Tile.Empty], 0⟩ 1 (Position.mk 0 0) 3 5).1 (by decide)).1⟩

/--
C2: per-position behaviour of `MapKnowledge::merge_robot_knowledge` over an
incoming set with distinct keys (the `HashMap` invariant): an unknown
position is inserted and reported updated; a known position is overwritten
and reported exactly when the incoming version is strictly greater; on an
equal or lower incoming version the stored cell is untouched and the
position is not reported.
-/
theorem merge_per_position (store : MapKnowledge)
    (incoming : List ((Nat × Nat) × ExploredTile)) (robot_id timestamp : Nat)
    (hnd : (incoming.map Prod.fst).Nodup) (x y : Nat) (c : ExploredTile)
    (hmem : ((x, y), c) ∈ incoming) :
    (hmGet store.explored_tiles (x, y) = none →
      hmGet (store.merge_robot_knowledge incoming robot_id timestamp).1.explored_tiles (x, y)
        = some c ∧
      Position.mk x y ∈ (store.merge_robot_knowledge incoming robot_id timestamp).2) ∧
    (∀ old, hmGet store.explored_tiles (x, y) = some old →
      (old.version < c.version →
        hmGet (store.merge_robot_knowledge incoming robot_id timestamp).1.explored_tiles (x, y)
          = some c ∧
        Position.mk x y ∈ (store.merge_robot_knowledge incoming robot_id timestamp).2) ∧
      (c.version ≤ old.version →
        hmGet (store.merge_robot_knowledge incoming robot_id timestamp).1.explored_tiles (x, y)
          = some old ∧
        Position.mk x y ∉ (store.merge_robot_knowledge incoming robot_id timestamp).2)) := by
  have htiles : (store.merge_robot_knowledge incoming robot_id timestamp).1.explored_tiles
      = (mergeTiles store.explored_tiles incoming).1 := by
    simp only [MapKnowledge.merge_robot_knowledge]
    by_cases hE : (mergeTiles store.explored_tiles incoming).2.isEmpty
    · rw [if_pos hE]
    · rw [if_neg hE]
  have hups : (store.merge_robot_knowledge incoming robot_id timestamp).2
      = (mergeTiles store.explored_tiles incoming).2 := by
    simp only [MapKnowledge.merge_robot_knowledge]
    by_cases hE : (mergeTiles store.explored_tiles incoming).2.isEmpty
    · rw [if_pos hE]
    · rw [if_neg hE]
  rw [htiles, hups]
  exact mergeTiles_per_entry incoming store.explored_tiles hnd x y c hmem

/-- Concrete instantiation of the C2 theorem: incoming version 2 overwrites
a stored version-1 cell and reports the position. -/
theorem merge_per_position_witness :
    (([(((0 : Nat), (0 : Nat)), ExploredTile.mk Tile.Obstacle 2 none)].map Prod.fst).Nodup) ∧
    hmGet (MapKnowledge.mk 0 [((0, 0), ExploredTile.mk Tile.Empty 1 none)] []).explored_tiles (0, 0)
      = some (ExploredTile.mk Tile.Empty 1 none) ∧
    (hmGet ((MapKnowledge.mk 0 [((0, 0), ExploredTile.mk Tile.Empty 1 none)]
          []).merge_robot_knowledge
        [((0, 0), ExploredTile.mk Tile.Obstacle 2 none)] 7 42).1.explored_tiles (0, 0)
      = some (ExploredTile.mk Tile.Obstacle 2 none) ∧
     Position.mk 0 0 ∈ ((MapKnowledge.mk 0 [((0, 0), ExploredTile.mk Tile.Empty 1 none)]
          []).merge_robot_knowledge
        [((0, 0), ExploredTile.mk Tile.Obstacle 2 none)] 7 42).2) :=
  ⟨by decide, by decide,
    ((merge_per_position (MapKnowledge.mk 0 [((0, 0), ExploredTile.mk Tile.Empty 1 none)] [])
        [((0, 0), ExploredTile.mk Tile.Obstacle 2 none)] 7 42 (by decide) 0 0
        (ExploredTile.mk Tile.Obstacle 2 none) (by decide)).2
      (ExploredTile.mk Tile.Empty 1 none) (by decide)).1 (by decide)⟩

/--
C3: one `merge_robot_knowledge` call bumps `version` by exactly 1 and
appends exactly one `MapUpdate` listing the updated positions when at
least one position changed; when nothing changed (in particular for an
empty incoming set) the store is returned unchanged; hence `version` is
monotonically non-decreasing across merges.
-/
theorem merge_version_bump (store : MapKnowledge)
    (incoming : List ((Nat × Nat) × ExploredTile)) (robot_id timestamp : Nat) :
    ((store.merge_robot_knowledge incoming robot_id timestamp).2 ≠ [] →
      (store.merge_robot_knowledge incoming robot_id timestamp).1.version = store.version + 1 ∧
      (store.merge_robot_knowledge incoming robot_id timestamp).1.updates_history =
        store.updates_history ++
          [MapUpdate.mk (store.version + 1)
            (store.merge_robot_knowledge incoming robot_id timestamp).2 timestamp robot_id]) ∧
    ((store.merge_robot_knowledge incoming robot_id timestamp).2 = [] →
      (store.merge_robot_knowledge incoming robot_id timestamp).1 = store) ∧
    (store.merge_robot_knowledge [] robot_id timestamp = (store, [])) ∧
    store.version ≤ (store.merge_robot_knowledge incoming robot_id timestamp).1.version := by
  have hmerge_nil : store.merge_robot_knowledge [] robot_id timestamp = (store, []) := by
    simp [MapKnowledge.merge_robot_knowledge, mergeTiles]
  by_cases hE : (mergeTiles store.explored_tiles incoming).2 = []
  · have h1 : (mergeTiles store.explored_tiles incoming).1 = store.explored_tiles :=
      mergeTiles_no_update _ _ hE
    have h2 : store.merge_robot_knowledge incoming robot_id timestamp = (store, []) := by
      simp only [MapKnowledge.merge_robot_knowledge]
      rw [if_pos (by simp [hE]), h1, hE]
    refine ⟨?_, ?_, hmerge_nil, ?_⟩
    · intro hne
      exfalso
      apply hne
      rw [h2]
    · intro _
      rw [h2]
    · rw [h2]
  · have h2 : store.merge_robot_knowledge incoming robot_id timestamp =
        ({ version := store.version + 1,
           explored_tiles := (mergeTiles store.explored_tiles incoming).1,
           updates_history := store.updates_history ++
             [MapUpdate.mk (store.version + 1) (mergeTiles store.explored_tiles incoming).2
               timestamp robot_id] },
         (mergeTiles store.explored_tiles incoming).2) := by
      simp only [MapKnowledge.merge_robot_knowledge]
      rw [if_neg (by simp [List.isEmpty_iff, hE])]
    refine ⟨?_, ?_, hmerge_nil, ?_⟩
    · intro _
      rw [h2]
      exact ⟨rfl, rfl⟩
    · intro h
      exfalso
      rw [h2] at h
      exact hE h
    · rw [h2]
      exact Nat.le_succ _
  
/-- Concrete instantiation of the C3 theorem: a one-cell merge into the
fresh store bumps the version from 0 to 1. -/
theorem merge_version_bump_witness :
    ((MapKnowledge.new.merge_robot_knowledge [((0, 0), ExploredTile.mk Tile.Obstacle 1 none)]
        3 9).2 ≠ []) ∧
    (MapKnowledge.new.merge_robot_knowledge [((0, 0), ExploredTile.mk Tile.Obstacle 1 none)]
        3 9).1.version = MapKnowledge.new.version + 1 :=
  ⟨by decide,
    ((merge_version_bump MapKnowledge.new [((0, 0), ExploredTile.mk Tile.Obstacle 1 none)]
      3 9).1 (by decide)).1⟩

/--
C4: `resolve_conflicts(self, other)` adopts `other`'s cell exactly on a
strictly greater version (ties and self-greater keep `self`'s original
cell), inserts the positions known only to `other`, keeps positions known
only to `self`, and sets `current_version` to
`max(self.version, other.version) + 1`, strictly above both inputs.
-/
theorem resolve_conflicts_spec (a b : MapKnowledge)
    (hnd : (b.explored_tiles.map Prod.fst).Nodup) :
    (∀ k sa sb, hmGet a.explored_tiles k = some sa → hmGet b.explored_tiles k = some sb →
      hmGet (a.resolve_conflicts b).explored_tiles k =
        some (if sa.version < sb.version then sb else sa)) ∧
    (∀ k sb, hmGet a.explored_tiles k = none → hmGet b.explored_tiles k = some sb →
      hmGet (a.resolve_conflicts b).explored_tiles k = some sb) ∧
    (∀ k sa, hmGet a.explored_tiles k = some sa → hmGet b.explored_tiles k = none →
      hmGet (a.resolve_conflicts b).explored_tiles k = some sa) ∧
    (a.resolve_conflicts b).version = max a.version b.version + 1 ∧
    a.version < (a.resolve_conflicts b).version ∧
    b.version < (a.resolve_conflicts b).version := by
  have hget := resolveTiles_get b.explored_tiles a.explored_tiles hnd
  refine ⟨?_, ?_, ?_, rfl, ?_, ?_⟩
  · intro k sa sb hga hgb
    have h := hget k
    rw [hga, hgb] at h
    exact h
  · intro k sb hga hgb
    have h := hget k
    rw [hga, hgb] at h
    exact h
  · intro k sa hga hgb
    have h := hget k
    rw [hga, hgb] at h
    exact h
  · show a.version < max a.version b.version + 1
    omega
  · show b.version < max a.version b.version + 1
    omega

/-- Concrete instantiation of the C4 theorem: a version tie at (0, 0)
keeps `self`'s cell and the resolved version exceeds both inputs. -/
theorem resolve_conflicts_witness :
    (([(((0 : Nat), (0 : Nat)), ExploredTile.mk Tile.Station 3 none)].map Prod.fst).Nodup) ∧
    hmGet ((MapKnowledge.mk 3 [((0, 0), ExploredTile.mk Tile.Obstacle 3 none)]
          []).resolve_conflicts
        (MapKnowledge.mk 2 [((0, 0), ExploredTile.mk Tile.Station 3 none)] [])).explored_tiles
        (0, 0)
      = some (ExploredTile.mk Tile.Obstacle 3 none) :=
  ⟨by decide, by
    rw [(resolve_conflicts_spec
        (MapKnowledge.mk 3 [((0, 0), ExploredTile.mk Tile.Obstacle 3 none)] [])
        (MapKnowledge.mk 2 [((0, 0), ExploredTile.mk Tile.Station 3 none)] [])
        (by decide)).1 (0, 0) (ExploredTile.mk Tile.Obstacle 3 none)
        (ExploredTile.mk Tile.Station 3 none) (by decide) (by decide)]
    decide⟩

/--
C5 counterexample: at a concrete state whose ledger holds Energy 1000 at
(0, 0), processing `ResourceConsumed{Energy, (0,0), 200}` emits the
`ResourceUpdate` broadcast before the terrain-map mutation (so the claim
that both the ledger and the terrain are mutated before the broadcast is
false), even though the terrain really is mutated by the processing.
-/
theorem consumed_broadcast_before_terrain :
    broadcastAfterMapConsume
      (processConsumed ⟨[1, 2], [(Position.mk 0 0, 1000)], [], []⟩
        ⟨1, 1, [Tile.Energy ⟨1000, false⟩], 0⟩ 1 ResourceType.Energy
        (Position.mk 0 0) 200).2.2 = false ∧
    (processConsumed ⟨[1, 2], [(Position.mk 0 0, 1000)], [], []⟩
        ⟨1, 1, [Tile.Energy ⟨1000, false⟩], 0⟩ 1 ResourceType.Energy
        (Position.mk 0 0) 200).2.1 ≠ ⟨1, 1, [Tile.Energy ⟨1000, false⟩], 0⟩ := by
  decide

/--
C5 (amended): when the ledger holds the consumed entry, the event order of
the source is: ledger write, then the `ResourceUpdate` broadcast carrying
the post-consumption ledger amount to every registered robot, and only
after the broadcast the terrain-map mutation; finally the acknowledgement
(for all three kinds; for `ScientificData` the broadcast carries 0).
-/
theorem consumed_event_order (st : StationCommunication) (map : Map)
    (robot : Nat) (pos : Position) (amount : Nat) :
    (∀ r, hmGet st.energy_resources pos = some r →
      (processConsumed st map robot ResourceType.Energy pos amount).2.2 =
        [Event.ledgerWrite ResourceType.Energy pos (r - amount),
         Event.broadcast (StationMessage.ResourceUpdate ResourceType.Energy pos (r - amount))
           st.robot_senders,
         Event.mapConsume ResourceType.Energy pos amount] ++
        ackEvents st robot "Resource consumption registered" ∧
      (hmGet (processConsumed st map robot ResourceType.Energy pos amount).1.energy_resources
          pos).getD 0 = r - amount ∧
      (processConsumed st map robot ResourceType.Energy pos amount).2.1 =
        (map.consume_energy pos.x pos.y amount).1) ∧
    (∀ r, hmGet st.mineral_resources pos = some r →
      (processConsumed st map robot ResourceType.Minerals pos amount).2.2 =
        [Event.ledgerWrite ResourceType.Minerals pos (r - amount),
         Event.broadcast (StationMessage.ResourceUpdate ResourceType.Minerals pos (r - amount))
           st.robot_senders,
         Event.mapConsume ResourceType.Minerals pos amount] ++
        ackEvents st robot "Resource consumption registered" ∧
      (hmGet (processConsumed st map robot ResourceType.Minerals pos amount).1.mineral_resources
          pos).getD 0 = r - amount ∧
      (processConsumed st map robot ResourceType.Minerals pos amount).2.1 =
        (map.consume_mineral pos.x pos.y amount).1) ∧
    (∀ v, hmGet st.scientific_resources pos = some v →
      (processConsumed st map robot ResourceType.ScientificData pos amount).2.2 =
        [Event.ledgerWrite ResourceType.ScientificData pos 0,
         Event.broadcast (StationMessage.ResourceUpdate ResourceType.ScientificData pos 0)
           st.robot_senders,
         Event.mapConsume ResourceType.ScientificData pos amount] ++
        ackEvents st robot "Resource consumption registered" ∧
      (processConsumed st map robot ResourceType.ScientificData pos amount).2.1 =
        (map.extract_scientific_data pos.x pos.y).1) := by
  refine ⟨?_, ?_, ?_⟩
  · intro r hg
    simp only [processConsumed, hg]
    by_cases hz : r - amount = 0
    · rw [if_pos hz]
      refine ⟨by simp [hz], by simp [hz, hmGet_hmRemove_self], by simp⟩
    · rw [if_neg hz]
      refine ⟨by simp, by simp [hmGet_hmInsert_self], by simp⟩
  · intro r hg
    simp only [processConsumed, hg]
    by_cases hz : r - amount = 0
    · rw [if_pos hz]
      refine ⟨by simp [hz], by simp [hz, hmGet_hmRemove_self], by simp⟩
    · rw [if_neg hz]
      refine ⟨by simp, by simp [hmGet_hmInsert_self], by simp⟩
  · intro v hg
    have hcont : hmContains st.scientific_resources pos = true := by
      simp [hmContains, hg]
    simp [processConsumed, hcont]

/-- Concrete instantiation of the amended C5 theorem, the spec's own
scenario amounts: Energy 1000, consume 200. -/
theorem consumed_event_order_witness :
    hmGet ([(Position.mk 0 0, 1000)] : List (Position × Nat)) (Position.mk 0 0) = some 1000 ∧
    (processConsumed ⟨[1, 2], [(Position.mk 0 0, 1000)], [], []⟩
        ⟨1, 1, [Tile.Energy ⟨1000, false⟩], 0⟩ 1 ResourceType.Energy
        (Position.mk 0 0) 200).2.2 =
      [Event.ledgerWrite ResourceType.Energy (Position.mk 0 0) (1000 - 200),
       Event.broadcast
         (StationMessage.ResourceUpdate ResourceType.Energy (Position.mk 0 0) (1000 - 200))
         [1, 2],
       Event.mapConsume ResourceType.Energy (Position.mk 0 0) 200] ++
      ackEvents ⟨[1, 2], [(Position.mk 0 0, 1000)], [], []⟩ 1
        "Resource consumption registered" :=
  ⟨by decide,
    ((consumed_event_order ⟨[1, 2], [(Position.mk 0 0, 1000)], [], []⟩
      ⟨1, 1, [Tile.Energy ⟨1000, false⟩], 0⟩ 1 (Position.mk 0 0) 200).1 1000 (by decide)).1⟩

/--
C6 counterexample: with an empty ledger but an Energy tile of 5 at (0, 0),
processing `ResourceConsumed{Energy, (0,0), 3}` changes the terrain map —
so "processing the message is a no-op ... nothing is consumed" is false
for a position with no ledger record.
-/
theorem missing_resource_still_consumes_terrain :
    hmGet (StationCommunication.new).energy_resources (Position.mk 0 0) = none ∧
    (processConsumed StationCommunication.new ⟨1, 1, [Tile.Energy ⟨5, false⟩], 0⟩ 1
        ResourceType.Energy (Position.mk 0 0) 3).2.1 ≠ ⟨1, 1, [Tile.Energy ⟨5, false⟩], 0⟩ := by
  decide

/--
C6 (amended): a `ResourceConsumed` for a `(kind, position)` with no ledger
record leaves the station state (all three ledger tables and the roster)
unchanged and never fails — but the consume is not a full no-op: the
terrain consumption is still attempted, so the map becomes exactly what
the matching `Map` consume call yields and a terrain tile present without
a ledger record is still depleted; a `ResourceDiscovered` whose position
has no matching terrain tile leaves the station state unchanged.  The
theorem also records the exact events this case emits: for
`Energy`/`Minerals` a `remaining = 0` broadcast followed by the terrain
mutation and the acknowledgement, for `ScientificData` no broadcast at
all.
-/
theorem missing_resource_ledger_untouched (st : StationCommunication) (map : Map)
    (robot : Nat) (pos : Position) (amount : Nat) :
    (hmGet st.energy_resources pos = none →
      (processConsumed st map robot ResourceType.Energy pos amount).1 = st ∧
      (processConsumed st map robot ResourceType.Energy pos amount).2.1 =
        (map.consume_energy pos.x pos.y amount).1 ∧
      (processConsumed st map robot ResourceType.Energy pos amount).2.2 =
        [Event.broadcast (StationMessage.ResourceUpdate ResourceType.Energy pos 0)
           st.robot_senders,
         Event.mapConsume ResourceType.Energy pos amount] ++
        ackEvents st robot "Resource consumption registered") ∧
    (hmGet st.mineral_resources pos = none →
      (processConsumed st map robot ResourceType.Minerals pos amount).1 = st ∧
      (processConsumed st map robot ResourceType.Minerals pos amount).2.1 =
        (map.consume_mineral pos.x pos.y amount).1 ∧
      (processConsumed st map robot ResourceType.Minerals pos amount).2.2 =
        [Event.broadcast (StationMessage.ResourceUpdate ResourceType.Minerals pos 0)
           st.robot_senders,
         Event.mapConsume ResourceType.Minerals pos amount] ++
        ackEvents st robot "Resource consumption registered") ∧
    (hmGet st.scientific_resources pos = none →
      (processConsumed st map robot ResourceType.ScientificData pos amount).1 = st ∧
      (processConsumed st map robot ResourceType.ScientificData pos amount).2.1 =
        (map.extract_scientific_data pos.x pos.y).1 ∧
      (processConsumed st map robot ResourceType.ScientificData pos amount).2.2 =
        [Event.mapConsume ResourceType.ScientificData pos amount] ++
        ackEvents st robot "Resource consumption registered") ∧
    (∀ rt, discoveredAmount map rt pos = none →
      (processDiscovered st map robot rt pos).1 = st) := by
  refine ⟨?_, ?_, ?_, ?_⟩
  · intro hg
    simp [processConsumed, hg]
  · intro hg
    simp [processConsumed, hg]
  · intro hg
    have hcont : hmContains st.scientific_resources pos = false := by
      simp [hmContains, hg]
    simp [processConsumed, hcont]
  · intro rt hda
    rcases Option.eq_none_or_eq_some (map.get_tile pos.x pos.y) with hgt | ⟨t, hgt⟩
    · cases rt <;> simp [processDiscovered, hgt]
    · cases rt <;> cases t <;> simp_all [processDiscovered, discoveredAmount]

/-- Concrete instantiation of the amended C6 theorem: empty ledger, the
station state is returned unchanged. -/
theorem missing_resource_ledger_untouched_witness :
    hmGet (StationCommunication.new).energy_resources (Position.mk 0 0) = none ∧
    (processConsumed StationCommunication.new ⟨1, 1, [Tile.Energy ⟨5, false⟩], 0⟩ 1
        ResourceType.Energy (Position.mk 0 0) 3).1 = StationCommunication.new :=
  ⟨by decide,
    ((missing_resource_ledger_untouched StationCommunication.new
      ⟨1, 1, [Tile.Energy ⟨5, false⟩], 0⟩ 1 (Position.mk 0 0) 3).1 (by decide)).1⟩

/--
C7: `generate_partial_map` does not default uncovered cells to an
unexplored baseline: it bases the grid on `Map::new(width, height, 0)`
(whose comment claims an empty map), and for every noise/RNG environment
and all dimensions ≥ 1 that seed-0 generation contains a non-`Empty` tile
— either some obstacle survives, or the grid is all `Empty` after the
obstacle pass and then the first energy-base placement (base count is
always ≥ `BASE_COUNT_MIN` = 5) succeeds on its very first try.  So even
the store with no explored cells materializes fabricated terrain at a
position it never explored.
-/
theorem generate_partial_map_fabricates (env : MapGenEnv) (w h : Nat)
    (hw : 1 ≤ w) (hh : 1 ≤ h) :
    ∃ x y t, (MapKnowledge.new.generate_partial_map env w h).get_tile x y = some t ∧
      t ≠ Tile.Empty := by
  have hgen : MapKnowledge.new.generate_partial_map env w h = Map.new env w h 0 := rfl
  rw [hgen]
  have hlen1 : (obstaclePass env w h (List.replicate (w * h) Tile.Empty)).length = w * h := by
    rw [obstaclePass_length, List.length_replicate]
  have hmain : ∃ i, i < w * h ∧
      ∃ t, (Map.new env w h 0).tiles.get? i = some t ∧ t ≠ Tile.Empty := by
    by_cases hA : ∀ i, i < w * h →
        (obstaclePass env w h (List.replicate (w * h) Tile.Empty)).get? i = some Tile.Empty
    · obtain ⟨c, hc⟩ : ∃ c, genRangeIncl env 0 BASE_COUNT_MIN BASE_COUNT_MAX = c + 1 :=
        ⟨BASE_COUNT_MIN - 1 + env.rng 0 % (BASE_COUNT_MAX - BASE_COUNT_MIN + 1), by
          simp only [genRangeIncl, BASE_COUNT_MIN, BASE_COUNT_MAX]
          omega⟩
      have hx0 : env.rng 1 % w < w := Nat.mod_lt _ hw
      have hy0 : env.rng 2 % h < h := Nat.mod_lt _ hh
      have hidx0 : env.rng 2 % h * w + env.rng 1 % w < w * h := by
        calc env.rng 2 % h * w + env.rng 1 % w
            < env.rng 2 % h * w + w := by omega
          _ = (env.rng 2 % h + 1) * w := by ring
          _ ≤ h * w := Nat.mul_le_mul_right w hy0
          _ = w * h := Nat.mul_comm h w
      have hempty0 := hA _ hidx0
      have hfva : findValidAux env (obstaclePass env w h (List.replicate (w * h) Tile.Empty))
          w h 1 100 = (some (env.rng 1 % w, env.rng 2 % h), 3) := by
        have hs := findValidAux_step env
          (obstaclePass env w h (List.replicate (w * h) Tile.Empty)) w h 1 99 hempty0
        norm_num at hs
        exact hs
      have hstep := placeBases_step_found env w h
        (fun a => Tile.Energy { amount := a, is_base := true })
        (obstaclePass env w h (List.replicate (w * h) Tile.Empty)) 1 c
        (env.rng 1 % w) (env.rng 2 % h) 3 hfva
      refine ⟨env.rng 2 % h * w + env.rng 1 % w, hidx0,
        Tile.Energy { amount := genRangeIncl env 3 BASE_AMOUNT_MIN BASE_AMOUNT_MAX,
                      is_base := true }, ?_, by simp⟩
      simp only [Map.new]
      rw [hc, hstep]
      exact placeBases_preserve _ _ _ _ _ _ _ _ _
        (placeBases_preserve _ _ _ _ _ _ _ _ _
          (placeBases_preserve _ _ _ _ _ _ _ _ _
            (by
              rw [List.get?_eq_getElem?,
                List.getElem?_set_self (by rw [hlen1]; exact hidx0)])
            (by simp))
          (by simp))
        (by simp)
    · push_neg at hA
      obtain ⟨i, hi, hne⟩ := hA
      have hlt : i < (obstaclePass env w h (List.replicate (w * h) Tile.Empty)).length := by
        rw [hlen1]
        exact hi
      obtain ⟨t, hgi⟩ : ∃ t,
          (obstaclePass env w h (List.replicate (w * h) Tile.Empty)).get? i = some t := by
        rw [List.get?_eq_getElem?]
        exact ⟨_, List.getElem?_eq_getElem hlt⟩
      have htne : t ≠ Tile.Empty := by
        intro he
        rw [he] at hgi
        exact hne hgi
      exact ⟨i, hi, t, Map.new_get_preserve env w h 0 i t hgi htne, htne⟩
  obtain ⟨i, hi, t, hget, htne⟩ := hmain
  refine ⟨i % w, i / w, t, ?_, htne⟩
  have hx : i % w < w := Nat.mod_lt _ hw
  have hi2 : i < h * w := by
    rw [Nat.mul_comm h w]
    exact hi
  have hy : i / w < h := (Nat.div_lt_iff_lt_mul hw).mpr hi2
  have hidx : i / w * w + i % w = i := by
    calc i / w * w + i % w = w * (i / w) + i % w := by rw [Nat.mul_comm]
      _ = i := Nat.div_add_mod i w
  have hW : (Map.new env w h 0).width = w := rfl
  have hH : (Map.new env w h 0).height = h := rfl
  simp only [Map.get_tile, hW, hH]
  rw [if_neg (by omega : ¬(i % w ≥ w ∨ i / w ≥ h))]
  rw [hidx]
  exact hget

/-- Concrete instantiation of the C7 theorem on the 1×1 grid. -/
theorem generate_partial_map_fabricates_witness :
    (1 : Nat) ≤ 1 ∧
    ∃ x y t,
      (MapKnowledge.new.generate_partial_map ⟨fun _ _ => false, fun _ => 0⟩ 1 1).get_tile x y
        = some t ∧ t ≠ Tile.Empty :=
  ⟨by decide,
    generate_partial_map_fabricates ⟨fun _ _ => false, fun _ => 0⟩ 1 1 (by decide) (by decide)⟩

/--
C8: `ScientificData` consumption is all-or-nothing: the first
`ResourceConsumed` for a ledger-known position removes the record entirely
(whatever the amount), the broadcast carries `remaining = 0`, and any
agent that applies that broadcast answers `is_resource_available` with
`false` for every required amount.
-/
theorem scientific_all_or_nothing (st : StationCommunication) (map : Map)
    (robot : Nat) (pos : Position) (amount v : Nat)
    (hg : hmGet st.scientific_resources pos = some v) :
    hmGet (processConsumed st map robot ResourceType.ScientificData pos
        amount).1.scientific_resources pos = none ∧
    Event.broadcast (StationMessage.ResourceUpdate ResourceType.ScientificData pos 0)
        st.robot_senders
      ∈ (processConsumed st map robot ResourceType.ScientificData pos amount).2.2 ∧
    ∀ (rc : RobotCommunication) (required : Nat),
      (rc.applyStationMessage
          (StationMessage.ResourceUpdate ResourceType.ScientificData pos 0)).is_resource_available
        ResourceType.ScientificData pos required = false := by
  have hcont : hmContains st.scientific_resources pos = true := by
    simp [hmContains, hg]
  refine ⟨?_, ?_, ?_⟩
  · simp [processConsumed, hcont, hmGet_hmRemove_self]
  · simp [processConsumed, hcont]
  · intro rc required
    simp [RobotCommunication.applyStationMessage, RobotCommunication.is_resource_available,
      hmContains, hmGet_hmRemove_self]

/-- Concrete instantiation of the C8 theorem at the spec's scenario
position (30, 30). -/
theorem scientific_all_or_nothing_witness :
    hmGet ([(Position.mk 30 30, 300)] : List (Position × Nat)) (Position.mk 30 30) = some 300 ∧
    hmGet (processConsumed ⟨[1], [], [], [(Position.mk 30 30, 300)]⟩ ⟨1, 1, [Tile.Empty], 0⟩ 1
        ResourceType.ScientificData (Position.mk 30 30) 50).1.scientific_resources
        (Position.mk 30 30) = none :=
  ⟨by decide,
    (scientific_all_or_nothing ⟨[1], [], [], [(Position.mk 30 30, 300)]⟩ ⟨1, 1, [Tile.Empty], 0⟩
      1 (Position.mk 30 30) 50 300 (by decide)).1⟩

/--
C9: `has_conflicts(a, b)` is true exactly when some position present in
both stores carries the same version but different tile content (the
embedding is a pure function of both stores, matching the read-only `&self,
&other` signature).
-/
theorem has_conflicts_iff (a b : MapKnowledge)
    (hnd : (a.explored_tiles.map Prod.fst).Nodup) :
    a.has_conflicts b = true ↔
      ∃ k ta tb, hmGet a.explored_tiles k = some ta ∧ hmGet b.explored_tiles k = some tb ∧
        ta.version = tb.version ∧ ta.tile ≠ tb.tile := by
  constructor
  · intro hc
    rw [MapKnowledge.has_conflicts, List.any_eq_true] at hc
    obtain ⟨e, hmem, hpred⟩ := hc
    rcases Option.eq_none_or_eq_some (hmGet b.explored_tiles e.1) with hgb | ⟨tb, hgb⟩
    · rw [hgb] at hpred
      simp at hpred
    · rw [hgb] at hpred
      simp only [decide_eq_true_eq] at hpred
      exact ⟨e.1, e.2, tb, hmGet_of_mem_nodup hnd hmem, hgb, hpred.1, hpred.2⟩
  · intro h
    obtain ⟨k, ta, tb, hga, hgb, hv, ht⟩ := h
    rw [MapKnowledge.has_conflicts, List.any_eq_true]
    refine ⟨(k, ta), hmGet_mem hga, ?_⟩
    simp [hgb, hv, ht]

/-- Concrete instantiation of the C9 theorem: the spec's scenario, version
3 on both sides with different content. -/
theorem has_conflicts_iff_witness :
    (([(((0 : Nat), (0 : Nat)), ExploredTile.mk Tile.Obstacle 3 none)].map Prod.fst).Nodup) ∧
    ((MapKnowledge.mk 3 [((0, 0), ExploredTile.mk Tile.Obstacle 3 none)] []).has_conflicts
        (MapKnowledge.mk 2 [((0, 0), ExploredTile.mk Tile.Station 3 none)] []) = true ↔
      ∃ k ta tb,
        hmGet (MapKnowledge.mk 3 [((0, 0), ExploredTile.mk Tile.Obstacle 3 none)]
            []).explored_tiles k = some ta ∧
        hmGet (MapKnowledge.mk 2 [((0, 0), ExploredTile.mk Tile.Station 3 none)]
            []).explored_tiles k = some tb ∧
        ta.version = tb.version ∧ ta.tile ≠ tb.tile) :=
  ⟨by decide,
    has_conflicts_iff (MapKnowledge.mk 3 [((0, 0), ExploredTile.mk Tile.Obstacle 3 none)] [])
      (MapKnowledge.mk 2 [((0, 0), ExploredTile.mk Tile.Station 3 none)] []) (by decide)⟩

/--
C10 (implicit): `register_consumed_resource` queues exactly one pending
entry carrying the caller's original, unclamped amount — even when the
local cache holds less than the amount, or nothing at all — while the
cache itself is decremented with saturating subtraction (the entry is
removed on reaching zero, a `ScientificData` entry is removed
unconditionally, a missing entry stays missing).
-/
theorem register_consumed_queues_original (rc : RobotCommunication) (pos : Position)
    (amount : Nat) :
    (∀ rt, (rc.register_consumed_resource rt pos amount).pending_consumed_resources =
      rc.pending_consumed_resources ++ [(rt, pos, amount)]) ∧
    (∀ cur, hmGet rc.local_energy_resources pos = some cur →
      hmGet (rc.register_consumed_resource ResourceType.Energy pos
          amount).local_energy_resources pos
        = (if cur ≤ amount then none else some (cur - amount))) ∧
    (hmGet rc.local_energy_resources pos = none →
      (rc.register_consumed_resource ResourceType.Energy pos amount).local_energy_resources =
        rc.local_energy_resources) ∧
    (∀ cur, hmGet rc.local_mineral_resources pos = some cur →
      hmGet (rc.register_consumed_resource ResourceType.Minerals pos
          amount).local_mineral_resources pos
        = (if cur ≤ amount then none else some (cur - amount))) ∧
    (hmGet rc.local_mineral_resources pos = none →
      (rc.register_consumed_resource ResourceType.Minerals pos amount).local_mineral_resources =
        rc.local_mineral_resources) ∧
    hmGet (rc.register_consumed_resource ResourceType.ScientificData pos
        amount).local_scientific_resources pos = none := by
  refine ⟨?_, ?_, ?_, ?_, ?_, ?_⟩
  · intro rt
    cases rt
    · rcases Option.eq_none_or_eq_some (hmGet rc.local_energy_resources pos) with hg | ⟨cur, hg⟩
      · simp [RobotCommunication.register_consumed_resource, hg]
      · by_cases hz : cur - amount = 0
        · simp [RobotCommunication.register_consumed_resource, hg, hz]
        · simp [RobotCommunication.register_consumed_resource, hg, hz]
    · rcases Option.eq_none_or_eq_some (hmGet rc.local_mineral_resources pos) with hg | ⟨cur, hg⟩
      · simp [RobotCommunication.register_consumed_resource, hg]
      · by_cases hz : cur - amount = 0
        · simp [RobotCommunication.register_consumed_resource, hg, hz]
        · simp [RobotCommunication.register_consumed_resource, hg, hz]
    · simp [RobotCommunication.register_consumed_resource]
  · intro cur hg
    simp only [RobotCommunication.register_consumed_resource, hg]
    by_cases hz : cur - amount = 0
    · rw [if_pos hz]
      dsimp only
      rw [hmGet_hmRemove_self, if_pos (show cur ≤ amount by omega)]
    · rw [if_neg hz]
      dsimp only
      rw [hmGet_hmInsert_self, if_neg (show ¬ cur ≤ amount by omega)]
  · intro hg
    simp [RobotCommunication.register_consumed_resource, hg]
  · intro cur hg
    simp only [RobotCommunication.register_consumed_resource, hg]
    by_cases hz : cur - amount = 0
    · rw [if_pos hz]
      dsimp only
      rw [hmGet_hmRemove_self, if_pos (show cur ≤ amount by omega)]
    · rw [if_neg hz]
      dsimp only
      rw [hmGet_hmInsert_self, if_neg (show ¬ cur ≤ amount by omega)]
  · intro hg
    simp [RobotCommunication.register_consumed_resource, hg]
  · simp [RobotCommunication.register_consumed_resource, hmGet_hmRemove_self]

/-- Concrete instantiation of the C10 theorem: a cache of 2 at (0, 0) and
a consumption of 5 still queues the full amount 5. -/
theorem register_consumed_queues_original_witness :
    ((RobotCommunication.mk 1 [(Position.mk 0 0, 2)] [] [] []).register_consumed_resource
        ResourceType.Energy (Position.mk 0 0) 5).pending_consumed_resources
      = [] ++ [(ResourceType.Energy, Position.mk 0 0, 5)] ∧
    hmGet ((RobotCommunication.mk 1 [(Position.mk 0 0, 2)] [] [] []).register_consumed_resource
        ResourceType.Energy (Position.mk 0 0) 5).local_energy_resources (Position.mk 0 0)
      = (if 2 ≤ 5 then none else some (2 - 5)) :=
  ⟨(register_consumed_queues_original (RobotCommunication.mk 1 [(Position.mk 0 0, 2)] [] [] [])
      (Position.mk 0 0) 5).1 ResourceType.Energy,
    (register_consumed_queues_original (RobotCommunication.mk 1 [(Position.mk 0 0, 2)] [] [] [])
      (Position.mk 0 0) 5).2.1 2 (by decide)⟩
